import Mathlib

/-!
Verification of the core of `create-introspect-mcp`:
* `scripts/divide_entities.py` — deterministic entity partitioning
  (seeded shuffle + contiguous slicing), and its CLI exit behaviour;
* `scripts/create_database.py` — the SQLite schema (ingestion inserts,
  uniqueness constraints, transactional populate, FTS5 shadow-index
  triggers), embedded as pure state-passing functions.

Machine integers are modelled as `Nat`/`Int` with explicit `% 2^32`
where the source wraps; fallible code returns `Except`.
-/



/-! ## Mersenne Twister (CPython `random`), used by `random.seed(42)` /
`random.shuffle` in `divide_entities.py`.

The generator state is 624 32-bit words plus a cursor.  All arithmetic
is `Nat` truncated by `u32`. -/

/-- Truncation to 32 bits, standing for C `uint32_t` wraparound. -/
def u32 (x : Nat) : Nat := x % 4294967296

/-- Mersenne Twister state: the 624-word vector and the read cursor `mti`. -/
structure MTState where
  vec : Array Nat
  idx : Nat
deriving Repr

/-- C `init_genrand(s)`: fill the state vector from a single 32-bit seed. -/
def mtInitGenrand (s : Nat) : Array Nat :=
  (List.range 623).foldl
    (fun acc k =>
      let prev := acc.getD (acc.size - 1) 0
      acc.push (u32 (1812433253 * (prev ^^^ (prev >>> 30)) + (k + 1))))
    #[u32 s]

/-- Index wraparound shared by both `init_by_array` mixing loops:
after `i` reaches 624, copy `mt[623]` to `mt[0]` and restart at 1. -/
def mtWrap (mt : Array Nat) (i : Nat) : Array Nat × Nat :=
  if 624 ≤ i then (mt.set! 0 (mt.getD 623 0), 1) else (mt, i)

/-- One iteration of the first `init_by_array` mixing loop (keyed mix). -/
def mtMixStep1 (key : List Nat) (st : Array Nat × Nat × Nat) : Array Nat × Nat × Nat :=
  let mt := st.1
  let i := st.2.1
  let j := st.2.2
  let prev := mt.getD (i - 1) 0
  let v := u32 ((mt.getD i 0 ^^^ u32 ((prev ^^^ (prev >>> 30)) * 1664525)) + key.getD j 0 + j)
  let mt1 := mt.set! i v
  let p := mtWrap mt1 (i + 1)
  let j1 := if key.length ≤ j + 1 then 0 else j + 1
  (p.1, p.2, j1)

/-- One iteration of the second `init_by_array` mixing loop; the C
subtraction `- i` is on `uint32_t`, hence the `+ 2^32` before `u32`. -/
def mtMixStep2 (st : Array Nat × Nat) : Array Nat × Nat :=
  let mt := st.1
  let i := st.2
  let prev := mt.getD (i - 1) 0
  let v := u32 ((mt.getD i 0 ^^^ u32 ((prev ^^^ (prev >>> 30)) * 1566083941)) + 4294967296 - i)
  mtWrap (mt.set! i v) (i + 1)

/-- C `init_by_array(key)`: seed the generator from a key of 32-bit words. -/
def mtInitByArray (key : List Nat) : Array Nat :=
  let mt0 := mtInitGenrand 19650218
  let st1 := (List.range (max 624 key.length)).foldl (fun st _ => mtMixStep1 key st) (mt0, 1, 0)
  let st2 := (List.range 623).foldl (fun st _ => mtMixStep2 st) (st1.1, st1.2.1)
  st2.1.set! 0 2147483648

/-- Python `random.seed(n)` for a nonnegative `n < 2^32`: CPython decomposes the
integer into 32-bit words (here the single word `[n]`) and calls
`init_by_array`; the cursor starts exhausted so the first draw twists. -/
def mtSeed (n : Nat) : MTState := ⟨mtInitByArray [n], 624⟩

/-- The twist (regeneration) step; the index arithmetic `(kk + 397) % 624`
and `(kk + 1) % 624` coincides with the three unrolled loops of the C
source. -/
def mtTwist (mt : Array Nat) : Array Nat :=
  (List.range 624).foldl
    (fun m kk =>
      let y := (m.getD kk 0 &&& 2147483648) ||| (m.getD ((kk + 1) % 624) 0 &&& 2147483647)
      let mag := if y % 2 = 1 then 2567483615 else 0
      m.set! kk ((m.getD ((kk + 397) % 624) 0) ^^^ (y >>> 1) ^^^ mag))
    mt

/-- C `genrand_uint32()`: twist when exhausted, then read and temper. -/
def mtNext (s : MTState) : Nat × MTState :=
  let p := if 624 ≤ s.idx then (mtTwist s.vec, 0) else (s.vec, s.idx)
  let y0 := p.1.getD p.2 0
  let y1 := y0 ^^^ (y0 >>> 11)
  let y2 := y1 ^^^ ((y1 <<< 7) &&& 2636928640)
  let y3 := y2 ^^^ ((y2 <<< 15) &&& 4022730752)
  let y4 := y3 ^^^ (y3 >>> 18)
  (y4, ⟨p.1, p.2 + 1⟩)

/-- Python `getrandbits(k)` for `k ≤ 32`: top `k` bits of one 32-bit draw. -/
def getrandbits (k : Nat) (s : MTState) : Nat × MTState :=
  let p := mtNext s
  (p.1 >>> (32 - k), p.2)

/-- Python `int.bit_length`. -/
def bitLength (n : Nat) : Nat := if n = 0 then 0 else Nat.log2 n + 1

/-- Fuel bound for the rejection loop of `_randbelow`; the Python loop
re-draws until `r < n` and terminates with probability 1 — the fuel only
makes the function total, and no theorem below depends on which index
comes out. -/
def randbelowFuel : Nat := 100

/-- Python `Random._randbelow_with_getrandbits(n)`: draw `bit_length n` bits,
rejecting draws `≥ n`. -/
def randbelow : Nat → Nat → MTState → Nat × MTState
  | 0, _, s => (0, s)
  | fuel + 1, n, s =>
    let p := getrandbits (bitLength n) s
    if p.1 < n then p else randbelow fuel n p.2

/-- The in-place swap `x[i], x[j] = x[j], x[i]` on a list; indices are
always in range at the call sites in `shuffleSteps`. -/
def swapL {α : Type} (l : List α) (i j : Nat) : List α :=
  match l[i]?, l[j]? with
  | some a, some b => (l.set i b).set j a
  | _, _ => l

/-- The body of `random.shuffle`: for `i` in `reversed(range(1, len(x)))`,
swap `x[i]` with `x[_randbelow(i+1)]`. -/
def shuffleSteps {α : Type} : List Nat → List α → MTState → List α × MTState
  | [], l, s => (l, s)
  | i :: rest, l, s =>
    let p := randbelow randbelowFuel (i + 1) s
    shuffleSteps rest (swapL l i p.1) p.2

/-- The statements `shuffled = entities.copy(); random.seed(42); random.shuffle(shuffled)`
from `divide_entities`: a fresh generator seeded with the fixed constant
42 drives a Fisher–Yates pass. -/
def pyShuffle {α : Type} (l : List α) : List α :=
  (shuffleSteps ((List.range l.length).drop 1).reverse l (mtSeed 42)).1

/-! ## `divide_entities.py` -/

/-- The one runtime error the partitioning code can raise:
`ZeroDivisionError` from `total // num_groups`. -/
inductive PyError where
  | zeroDivision
deriving DecidableEq, Repr

/-- Python `//` on ints: floor division, raising on a zero divisor. -/
def pyFloorDiv (a b : Int) : Except PyError Int :=
  if b = 0 then .error .zeroDivision else .ok (a.fdiv b)

/-- Python `%` on ints: floor-convention remainder, raising on zero. -/
def pyMod (a b : Int) : Except PyError Int :=
  if b = 0 then .error .zeroDivision else .ok (a.fmod b)

/-- Python slice `l[a:b]` for the nonnegative, ordered indices produced
by the slicing loop. -/
def pySlice {α : Type} (l : List α) (a b : Int) : List α :=
  (l.drop a.toNat).take (b - a).toNat

/-- Python `range(n)` for an `int` argument: empty when `n ≤ 0`. -/
def rangeInt (n : Int) : List Int :=
  (List.range n.toNat).map Int.ofNat

/-- The `for i in range(num_groups)` loop of `divide_entities`: the first
`remainder` groups get `base_size + 1` elements, the rest `base_size`,
taken as contiguous slices starting at `start_idx`. -/
def sliceLoop {α : Type} (shuffled : List α) (baseSize remainder : Int) :
    List Int → Int → List (List α)
  | [], _ => []
  | i :: rest, startIdx =>
    let groupSize := baseSize + (if i < remainder then 1 else 0)
    let endIdx := startIdx + groupSize
    pySlice shuffled startIdx endIdx :: sliceLoop shuffled baseSize remainder rest endIdx

/-- The function `divide_entities(entities, num_groups)` from `divide_entities.py`. -/
def divide_entities {α : Type} (entities : List α) (numGroups : Int) :
    Except PyError (List (List α)) := do
  let shuffled := pyShuffle entities
  let total : Int := (shuffled.length : Int)
  let baseSize ← pyFloorDiv total numGroups
  let remainder ← pyMod total numGroups
  pure (sliceLoop shuffled baseSize remainder (rangeInt numGroups) 0)

/-- One exported entity row (`export_entities`):
`{type, id, name, full_qualified_name}`. -/
structure EntityRec where
  type : String
  id : Nat
  name : String
  full_qualified_name : String
deriving DecidableEq, Repr

/-- The decision core of `main()` in `divide_entities.py`: return 1 when
the database file is missing, otherwise export, divide (which may raise),
write the group files and return 0.  There is no emptiness check on the
exported rows. -/
def mainExit (dbExists : Bool) (entities : List EntityRec) (numGroups : Int) :
    Except PyError Int := do
  if !dbExists then
    return 1
  let _groups ← divide_entities entities numGroups
  return 0

/-! ## `create_database.py` — data model

Rows mirror the columns of the DDL in `DatabaseCreator.create_schema`.
`AUTOINCREMENT` surrogate keys are modelled by per-table counters in the
database state. -/

/-- A row of `modules` (`id, name UNIQUE, docstring`). -/
structure ModuleRow where
  id : Nat
  name : String
  docstring : Option String
deriving DecidableEq, Repr

/-- A row of `classes`. -/
structure ClassRow where
  id : Nat
  name : String
  full_qualified_name : String
  docstring : Option String
  module_id : Nat
deriving DecidableEq, Repr

/-- A row of `class_inheritance` (composite primary key). -/
structure InheritanceRow where
  class_id : Nat
  base_class_name : String
deriving DecidableEq, Repr

/-- A row of `functions`; the boolean flags are stored as 0/1 integers. -/
structure FunctionRow where
  id : Nat
  name : String
  full_qualified_name : String
  signature_string : String
  docstring : Option String
  return_annotation : Option String
  is_async : Nat
  is_classmethod : Nat
  is_staticmethod : Nat
  class_id : Option Nat
  module_id : Nat
deriving DecidableEq, Repr

/-- A row of `parameters`. -/
structure ParameterRow where
  id : Nat
  function_id : Nat
  name : String
  kind : String
  annotation : Option String
  default_value : Option String
  position : Nat
deriving DecidableEq, Repr

/-- A row of the `classes_fts` FTS5 shadow table (content rowid = class id). -/
structure ClassFtsRow where
  rowid : Nat
  name : String
  full_qualified_name : String
  docstring : Option String
deriving DecidableEq, Repr

/-- A row of the `functions_fts` FTS5 shadow table. -/
structure FunctionFtsRow where
  rowid : Nat
  name : String
  full_qualified_name : String
  docstring : Option String
  signature_string : String
deriving DecidableEq, Repr

/-- The whole store: base tables, shadow tables, and the next
`AUTOINCREMENT` value for each table with a surrogate key. -/
structure DB where
  modules : List ModuleRow
  classes : List ClassRow
  class_inheritance : List InheritanceRow
  functions : List FunctionRow
  parameters : List ParameterRow
  classes_fts : List ClassFtsRow
  functions_fts : List FunctionFtsRow
  next_module_id : Nat
  next_class_id : Nat
  next_function_id : Nat
  next_parameter_id : Nat
deriving DecidableEq, Repr

/-- The store right after `create_schema` (and its commit): empty tables. -/
def emptyDB : DB :=
  ⟨[], [], [], [], [], [], [], 1, 1, 1, 1⟩

/-- Possible `sqlite3.IntegrityError` causes during ingestion: the three UNIQUE
columns and the composite primary key of `class_inheritance`. -/
inductive DBError where
  | uniqueModuleName (name : String)
  | uniqueClassFqn (fqn : String)
  | uniqueFunctionFqn (fqn : String)
  | duplicateInheritance (class_id : Nat) (base : String)
deriving DecidableEq, Repr

/-! ## `create_database.py` — input document (introspection JSON) -/

/-- One element of a function's `parameters` list. -/
structure ParamData where
  name : String
  kind : String
  annotation : Option String
  default : Option String
deriving DecidableEq, Repr

/-- One element of `functions` / `methods` in the JSON document. -/
structure FuncData where
  name : String
  qualified_name : String
  signature_string : String
  docstring : Option String
  return_annotation : Option String
  is_async : Bool
  is_classmethod : Bool
  is_staticmethod : Bool
  parameters : List ParamData
deriving DecidableEq, Repr

/-- One element of `classes` in the JSON document. -/
structure ClassData where
  name : String
  qualified_name : String
  docstring : Option String
  bases : List String
  methods : List FuncData
deriving DecidableEq, Repr

/-- The nested module document: `{name, docstring, classes, functions,
submodules}`. -/
inductive ModuleData where
  | mk (name : String) (docstring : Option String) (classes : List ClassData)
      (functions : List FuncData) (submodules : List ModuleData)

/-- Projection: module name. -/
def ModuleData.name : ModuleData → String
  | .mk n _ _ _ _ => n

/-- Projection: module docstring. -/
def ModuleData.docstring : ModuleData → Option String
  | .mk _ d _ _ _ => d

/-- Projection: classes of the module. -/
def ModuleData.classes : ModuleData → List ClassData
  | .mk _ _ cs _ _ => cs

/-- Projection: module-level functions. -/
def ModuleData.functions : ModuleData → List FuncData
  | .mk _ _ _ fs _ => fs

/-- Projection: submodules. -/
def ModuleData.submodules : ModuleData → List ModuleData
  | .mk _ _ _ _ ss => ss

/-! ## `create_database.py` — ingestion inserts

Each insert mimics one `cursor.execute(INSERT ...)`: probe the UNIQUE
constraint, append the row, bump the `AUTOINCREMENT` counter, and let
the `AFTER INSERT` triggers append the FTS5 mirror row. -/

/-- Method `insert_module`: one `modules` row (UNIQUE name), returning the new id. -/
def insert_module (db : DB) (name : String) (docstring : Option String) :
    Except DBError (Nat × DB) :=
  if db.modules.any (fun r => r.name = name) then
    .error (.uniqueModuleName name)
  else
    let mid := db.next_module_id
    .ok (mid, { db with
      modules := db.modules ++ [⟨mid, name, docstring⟩],
      next_module_id := mid + 1 })

/-- Method `insert_function`: one `functions` row (UNIQUE `full_qualified_name`),
its FTS mirror row via the `functions_ai` trigger, and one `parameters`
row per declared parameter with `position` equal to the zero-based
`enumerate` index. -/
def insert_function (db : DB) (fd : FuncData) (module_id : Nat)
    (class_id : Option Nat) : Except DBError DB :=
  if db.functions.any (fun r => r.full_qualified_name = fd.qualified_name) then
    .error (.uniqueFunctionFqn fd.qualified_name)
  else
    let fid := db.next_function_id
    let row : FunctionRow :=
      ⟨fid, fd.name, fd.qualified_name, fd.signature_string, fd.docstring,
        FuncData.return_annotation fd, if fd.is_async then 1 else 0,
        if fd.is_classmethod then 1 else 0, if fd.is_staticmethod then 1 else 0,
        class_id, module_id⟩
    let prows := fd.parameters.enum.map (fun pi =>
      (⟨db.next_parameter_id + pi.1, fid, pi.2.name, pi.2.kind, ParamData.annotation pi.2,
        pi.2.default, pi.1⟩ : ParameterRow))
    .ok { db with
      functions := db.functions ++ [row],
      functions_fts := db.functions_fts ++
        [⟨fid, fd.name, fd.qualified_name, fd.docstring, fd.signature_string⟩],
      parameters := db.parameters ++ prows,
      next_function_id := fid + 1,
      next_parameter_id := db.next_parameter_id + fd.parameters.length }

/-- The inheritance loop of `insert_class`: one `class_inheritance` row
per element of `bases`, in order, with no filtering of any base name;
the composite primary key rejects duplicates. -/
def insert_bases (cid : Nat) : DB → List String → Except DBError DB
  | db, [] => .ok db
  | db, b :: rest =>
    if db.class_inheritance.any (fun r => r.class_id = cid ∧ r.base_class_name = b) then
      .error (.duplicateInheritance cid b)
    else
      insert_bases cid
        { db with class_inheritance := db.class_inheritance ++ [⟨cid, b⟩] } rest

/-- Method `insert_class`: the class row (UNIQUE `full_qualified_name`) with its
FTS mirror row via the `classes_ai` trigger, then every declared base,
then every method through `insert_function` with `class_id` set. -/
def insert_class (db : DB) (cd : ClassData) (module_id : Nat) :
    Except DBError DB :=
  if db.classes.any (fun r => r.full_qualified_name = cd.qualified_name) then
    .error (.uniqueClassFqn cd.qualified_name)
  else do
    let cid := db.next_class_id
    let db1 : DB := { db with
      classes := db.classes ++ [⟨cid, cd.name, cd.qualified_name, cd.docstring, module_id⟩],
      classes_fts := db.classes_fts ++ [⟨cid, cd.name, cd.qualified_name, cd.docstring⟩],
      next_class_id := cid + 1 }
    let dbB ← insert_bases cid db1 cd.bases
    cd.methods.foldlM (fun acc md => insert_function acc md module_id (some cid)) dbB

/-- Helper `process_module` inside `populate_database`: insert the module row,
then its classes, then its module-level functions, then recurse into the
submodules. -/
def process_module (db : DB) (m : ModuleData) : Except DBError DB :=
  match m with
  | .mk name doc classes functions submodules => do
    let p ← insert_module db name doc
    let db1 ← classes.foldlM (fun acc cd => insert_class acc cd p.1) p.2
    let db2 ← functions.foldlM (fun acc fd => insert_function acc fd p.1 none) db1
    go db2 submodules
where
  /-- Recursion over the `submodules` list. -/
  go : DB → List ModuleData → Except DBError DB
    | db, [] => .ok db
    | db, s :: rest => do
      let db1 ← process_module db s
      go db1 rest

/-- Method `populate_database(data)`: the whole traversal runs between the
schema commit and the single `conn.commit()` at its end. -/
def populate_database (db : DB) (data : ModuleData) : Except DBError DB :=
  process_module db data

/-- What is durably visible after `create(json_data)` runs on a fresh
path: on success the populated store is committed; on an
`IntegrityError` the exception propagates, the `finally` block closes
the connection without a commit, and SQLite rolls the open transaction
back to the schema-only state committed by `create_schema`. -/
def createVisible (data : ModuleData) : DB :=
  match populate_database emptyDB data with
  | .ok db => db
  | .error _ => emptyDB

/-- Method `create(json_data)` including its first step: if a database file
already exists at the target path it is unlinked before connecting, so
the build always starts from a fresh store. -/
def createFile (prior : Option DB) (data : ModuleData) : DB :=
  match prior with
  | some _ => createVisible data
  | none => createVisible data

/-- Modelled from the spec: `DatabaseCreator.get_root_module`, required
by `tests/test_create_database.py` (`TestRootModuleFeature`) and by the
pipeline docstring of `create_full_mcp_server.py` ("Creates SQLite
database with root_module support") but absent from
`scripts/create_database.py`: the substring of a module name before the
first `.`, or the whole name when it has none. -/
def get_root_module (name : String) : String :=
  String.mk (name.data.takeWhile (fun c => c != '.'))

/-! ## FTS5 shadow-index synchronization (the six triggers)

The triggers of `create_schema` fire on any insert/update/delete against
the base tables, also for writers outside the ingestion pipeline.  The
op language below is one SQL statement per constructor; `applyOp` is the
statement's effect on the base table plus the trigger's effect on the
shadow table. -/

/-- Projection mirrored by the `classes_*` triggers. -/
def classToFts (c : ClassRow) : ClassFtsRow :=
  ⟨c.id, c.name, c.full_qualified_name, c.docstring⟩

/-- Projection mirrored by the `functions_*` triggers. -/
def funcToFts (f : FunctionRow) : FunctionFtsRow :=
  ⟨f.id, f.name, f.full_qualified_name, f.docstring, f.signature_string⟩

/-- One SQL write against `classes` or `functions`. -/
inductive TableOp where
  | insClass (name fqn : String) (docstring : Option String) (module_id : Nat)
  | delClass (id : Nat)
  | updClass (id : Nat) (name fqn : String) (docstring : Option String)
  | insFunc (name fqn sig : String) (docstring : Option String) (module_id : Nat)
  | delFunc (id : Nat)
  | updFunc (id : Nat) (name fqn sig : String) (docstring : Option String)

/-- Effect of one statement: the base-table change, then the trigger
(`*_ai` appends the mirror row; `*_ad` issues the FTS5 'delete' command
for the old rowid; `*_au` does both for each updated row). -/
def applyOp (db : DB) : TableOp → DB
  | .insClass n f d m =>
    let cid := db.next_class_id
    { db with
      classes := db.classes ++ [⟨cid, n, f, d, m⟩],
      classes_fts := db.classes_fts ++ [⟨cid, n, f, d⟩],
      next_class_id := cid + 1 }
  | .delClass i =>
    { db with
      classes := db.classes.filter (fun c => c.id ≠ i),
      classes_fts := db.classes_fts.filter (fun r => r.rowid ≠ i) }
  | .updClass i n f d =>
    { db with
      classes := db.classes.map (fun c =>
        if c.id = i then ⟨c.id, n, f, d, c.module_id⟩ else c),
      classes_fts := db.classes_fts.filter (fun r => r.rowid ≠ i) ++
        (db.classes.filter (fun c => c.id = i)).map (fun c => ⟨c.id, n, f, d⟩) }
  | .insFunc n f sg d m =>
    let fid := db.next_function_id
    { db with
      functions := db.functions ++ [⟨fid, n, f, sg, d, none, 0, 0, 0, none, m⟩],
      functions_fts := db.functions_fts ++ [⟨fid, n, f, d, sg⟩],
      next_function_id := fid + 1 }
  | .delFunc i =>
    { db with
      functions := db.functions.filter (fun c => c.id ≠ i),
      functions_fts := db.functions_fts.filter (fun r => r.rowid ≠ i) }
  | .updFunc i n f sg d =>
    { db with
      functions := db.functions.map (fun c =>
        if c.id = i then ⟨c.id, n, f, sg, d, FunctionRow.return_annotation c, c.is_async,
          c.is_classmethod, c.is_staticmethod, c.class_id, c.module_id⟩ else c),
      functions_fts := db.functions_fts.filter (fun r => r.rowid ≠ i) ++
        (db.functions.filter (fun c => c.id = i)).map (fun c => ⟨c.id, n, f, d, sg⟩) }

/-- A sequence of writes starting from the freshly created schema. -/
def applyOps (ops : List TableOp) : DB :=
  ops.foldl applyOp emptyDB

/-- The shadow indexes hold exactly one mirrored entry per live base-table
row (as bags — FTS5 tables are unordered). -/
def ftsMirror (db : DB) : Prop :=
  db.classes_fts.Perm (db.classes.map classToFts) ∧
  db.functions_fts.Perm (db.functions.map funcToFts)

/-- FTS5 `unicode61`-style tokenization restricted to its ASCII behaviour:
maximal alphanumeric runs of the text. -/
def tokenize (s : String) : List String :=
  ((s.data.splitOnP (fun c => !c.isAlphanum)).map (fun cs => String.mk cs)).filter
    (fun t => t ≠ "")

/-- The tokens under which a `classes_fts` row is indexed. -/
def classFtsTokens (r : ClassFtsRow) : List String :=
  tokenize r.name ++ tokenize r.full_qualified_name ++ tokenize (r.docstring.getD "")

/-- Query `SELECT * FROM classes_fts WHERE classes_fts MATCH T` for a single
token `T`. -/
def searchClassesFts (t : String) (db : DB) : List ClassFtsRow :=
  db.classes_fts.filter (fun r => decide (t ∈ classFtsTokens r))

/-- Decidable equality of `Except` results, for evaluating concrete runs. -/
instance {ε α : Type} [DecidableEq ε] [DecidableEq α] : DecidableEq (Except ε α) := fun a b =>
  match a, b with
  | .ok x, .ok y =>
    if h : x = y then .isTrue (congrArg Except.ok h)
    else .isFalse (fun hh => h (Except.ok.inj hh))
  | .error x, .error y =>
    if h : x = y then .isTrue (congrArg Except.error h)
    else .isFalse (fun hh => h (Except.error.inj hh))
  | .ok _, .error _ => .isFalse (fun hh => Except.noConfusion hh)
  | .error _, .ok _ => .isFalse (fun hh => Except.noConfusion hh)

/-- Sample class whose `bases` list is exactly `["object"]`. -/
def sampleClassObject : ClassData := ⟨"C", "m.C", none, ["object"], []⟩

/-- The store produced by inserting `sampleClassObject` into a fresh store. -/
def sampleClassObjectResult : DB :=
  ((insert_class emptyDB sampleClassObject 1).toOption).getD emptyDB

/-- A module document with two classes sharing one qualified name, so its
ingestion hits the UNIQUE constraint midway. -/
def sampleDupDoc : ModuleData :=
  .mk "m" none [⟨"C", "m.C", none, [], []⟩, ⟨"C2", "m.C", none, [], []⟩] [] []

/-- Two consecutive `insert_module` calls, as `populate` performs for the
modules `pkg.a` and `pkg.b`. -/
def ingestTwoModules : Except DBError DB := do
  let p ← insert_module emptyDB "pkg.a" none
  let q ← insert_module p.2 "pkg.b" none
  pure q.2

/-! ## Theorems

First the generic facts about the seeded shuffle: a Fisher–Yates pass is
a permutation of its input, whatever indices the generator produces. -/

/-- Moving element `k` to the head while writing `x` into its slot
permutes `x :: t`. -/
theorem headSwap_perm {α : Type} :
    ∀ (t : List α) (k : Nat) (hk : k < t.length) (x : α),
    (t.get ⟨k, hk⟩ :: t.set k x).Perm (x :: t) := by
  intro t
  induction t with
  | nil => intro k hk x; simp at hk
  | cons a t ih =>
    intro k hk x
    cases k with
    | zero => simpa using List.Perm.swap x a t
    | succ m =>
      have hm : m < t.length := by simpa using hk
      exact ((List.Perm.swap _ _ _).trans ((ih m hm x).cons a)).trans (List.Perm.swap _ _ _)

/-- Exchanging the entries at two in-range positions permutes the list. -/
theorem swap_set_perm {α : Type} (l : List α) :
    ∀ (i j : Nat) (hi : i < l.length) (hj : j < l.length),
    ((l.set i (l.get ⟨j, hj⟩)).set j (l.get ⟨i, hi⟩)).Perm l := by
  induction l with
  | nil => intro i j hi _; simp at hi
  | cons a t ih =>
    intro i j hi hj
    cases i with
    | zero =>
      cases j with
      | zero => simp
      | succ m =>
        have hm : m < t.length := by simpa using hj
        exact headSwap_perm t m hm a
    | succ n =>
      cases j with
      | zero =>
        have hn : n < t.length := by simpa using hi
        exact headSwap_perm t n hn a
      | succ m =>
        have hn : n < t.length := by simpa using hi
        have hm : m < t.length := by simpa using hj
        exact (ih n m hn hm).cons a

/-- Function `swapL` permutes the list for any index pair. -/
theorem swapL_perm {α : Type} (l : List α) (i j : Nat) : (swapL l i j).Perm l := by
  rw [swapL]
  split
  · next a b hi hj =>
    obtain ⟨hi1, hiv⟩ := List.getElem?_eq_some.mp hi
    obtain ⟨hj1, hjv⟩ := List.getElem?_eq_some.mp hj
    have := swap_set_perm l i j hi1 hj1
    rw [List.get_eq_getElem, List.get_eq_getElem] at this
    simpa [hiv, hjv] using this
  · exact List.Perm.refl l

/-- Every sequence of shuffle steps yields a permutation of the input. -/
theorem shuffleSteps_fst_perm {α : Type} :
    ∀ (idxs : List Nat) (l : List α) (s : MTState),
    ((shuffleSteps idxs l s).1).Perm l := by
  intro idxs
  induction idxs with
  | nil => intro l s; exact List.Perm.refl l
  | cons i rest ih =>
    intro l s
    exact (ih _ _).trans (swapL_perm l i _)

/-- The seeded shuffle of `divide_entities` permutes its input. -/
theorem pyShuffle_perm {α : Type} (l : List α) : (pyShuffle l).Perm l :=
  shuffleSteps_fst_perm _ l _

/-- The seeded shuffle preserves length. -/
theorem pyShuffle_length {α : Type} (l : List α) : (pyShuffle l).length = l.length :=
  (pyShuffle_perm l).length_eq

/-! ### The slicing loop: sizes and concatenation -/

/-- The slices of the loop concatenate to a contiguous segment of the
shuffled list: starting at `start_idx`, as long as the nominal sizes say. -/
theorem sliceLoop_flatten {α : Type} (L : List α) (b r : Int) (hb : 0 ≤ b) :
    ∀ (idxs : List Int) (s : Int), 0 ≤ s →
    (sliceLoop L b r idxs s).flatten =
      (L.drop s.toNat).take
        ((idxs.map (fun i => (b + if i < r then 1 else 0).toNat)).sum) := by
  intro idxs
  induction idxs with
  | nil => intro s _; simp [sliceLoop]
  | cons i rest ih =>
    intro s hs
    have hg : (0 : Int) ≤ b + (if i < r then 1 else 0) := by split <;> omega
    have hsg : (0 : Int) ≤ s + (b + (if i < r then 1 else 0)) := by omega
    simp only [sliceLoop, List.flatten_cons, List.map_cons, List.sum_cons]
    rw [ih (s + (b + (if i < r then 1 else 0))) hsg]
    have h1 : pySlice L s (s + (b + (if i < r then 1 else 0))) =
        (L.drop s.toNat).take (b + (if i < r then 1 else 0)).toNat := by
      unfold pySlice
      congr 1
      omega
    rw [h1, Int.toNat_add hs hg, ← List.drop_drop]
    exact (List.take_add _ _ _).symm

/-- When the sizes exactly fit the list, every slice has its nominal size. -/
theorem sliceLoop_lengths {α : Type} (L : List α) (b r : Int) (hb : 0 ≤ b) :
    ∀ (idxs : List Int) (s : Int), 0 ≤ s →
    s.toNat + ((idxs.map (fun i => (b + if i < r then 1 else 0).toNat)).sum) ≤ L.length →
    (sliceLoop L b r idxs s).map List.length =
      idxs.map (fun i => (b + if i < r then 1 else 0).toNat) := by
  intro idxs
  induction idxs with
  | nil => intro s _ _; simp [sliceLoop]
  | cons i rest ih =>
    intro s hs hle
    have hg : (0 : Int) ≤ b + (if i < r then 1 else 0) := by split <;> omega
    simp only [List.map_cons, List.sum_cons] at hle
    simp only [sliceLoop, List.map_cons]
    have h1 : (pySlice L s (s + (b + (if i < r then 1 else 0)))).length =
        (b + (if i < r then 1 else 0)).toNat := by
      unfold pySlice
      rw [List.length_take, List.length_drop]
      omega
    rw [h1, ih (s + (b + (if i < r then 1 else 0))) (by omega) (by omega)]

/-- Sum of the nominal sizes over `range N`. -/
theorem sizes_sum_range (N b r : Nat) :
    ((List.range N).map (fun k => b + if k < r then 1 else 0)).sum =
      N * b + min r N := by
  induction N with
  | zero => simp
  | succ n ih =>
    rw [List.range_succ, List.map_append, List.sum_append]
    simp only [List.map_cons, List.map_nil, List.sum_cons, List.sum_nil]
    rw [ih, Nat.succ_mul]
    split <;> omega

/-- Casting the nominal sizes from the `Int` loop to `Nat`. -/
theorem sizes_cast (N b r : Nat) :
    (rangeInt (N : Int)).map (fun i => (((b : Int)) + if i < (r : Int) then 1 else 0).toNat) =
      (List.range N).map (fun k => b + if k < r then 1 else 0) := by
  unfold rangeInt
  rw [Int.toNat_natCast, List.map_map]
  refine List.map_congr_left (fun k hk => ?_)
  simp only [Function.comp_apply, Int.ofNat_eq_natCast]
  rcases Nat.lt_or_ge k r with h | h
  · rw [if_pos (show ((k : Int) < (r : Int)) by exact_mod_cast h), if_pos h]
    omega
  · rw [if_neg (show ¬((k : Int) < (r : Int)) by exact_mod_cast Nat.not_lt.mpr h),
      if_neg (by omega)]
    omega

/-- The normal-form result of `divide_entities` for `numGroups ≥ 1`:
the call succeeds, group `k` has the nominal size (`len div n`, plus one
for the first `len mod n` groups), and the groups concatenate back to
the shuffled sequence. -/
theorem divide_spec {α : Type} (E : List α) (n : Int) (h1 : 1 ≤ n) :
    ∃ gs, divide_entities E n = Except.ok gs ∧
      gs.map List.length = (List.range n.toNat).map
        (fun k => E.length / n.toNat + if k < E.length % n.toNat then 1 else 0) ∧
      gs.flatten = pyShuffle E := by
  obtain ⟨N, rfl⟩ : ∃ N : Nat, n = (N : Int) :=
    ⟨n.toNat, (Int.toNat_of_nonneg (by omega)).symm⟩
  have hN1 : 1 ≤ N := by exact_mod_cast h1
  have hN0 : ((N : Nat) : Int) ≠ 0 := by exact_mod_cast Nat.one_le_iff_ne_zero.mp hN1
  have hL : (pyShuffle E).length = E.length := pyShuffle_length E
  have hmod : (pyShuffle E).length % N < N := Nat.mod_lt _ (by omega)
  have hdm := Nat.div_add_mod (pyShuffle E).length N
  have hsum : ((List.range N).map
      (fun k => (pyShuffle E).length / N + if k < (pyShuffle E).length % N then 1 else 0)).sum
      = (pyShuffle E).length := by
    rw [sizes_sum_range]
    omega
  refine ⟨sliceLoop (pyShuffle E) (((pyShuffle E).length / N : Nat) : Int)
      (((pyShuffle E).length % N : Nat) : Int) (rangeInt (N : Int)) 0, ?_, ?_, ?_⟩
  · simp only [divide_entities, pyFloorDiv, pyMod, hN0, if_false, reduceIte,
      Except.bind, pure, Except.pure]
    rw [← Int.ofNat_fdiv, ← Int.ofNat_fmod]
    rfl
  · have hcond : (0 : Int).toNat + (((rangeInt ((N : Nat) : Int)).map
        (fun i => ((((pyShuffle E).length / N : Nat) : Int) +
          if i < (((pyShuffle E).length % N : Nat) : Int) then 1 else 0).toNat)).sum)
        ≤ (pyShuffle E).length := by
      rw [sizes_cast, hsum]
      simp
    rw [sliceLoop_lengths (pyShuffle E) _ _ (Int.natCast_nonneg _) _ 0 (by omega) hcond,
      sizes_cast]
    simp only [Int.toNat_natCast]
    rw [hL]
  · rw [sliceLoop_flatten (pyShuffle E) _ _ (Int.natCast_nonneg _) _ 0 le_rfl,
      sizes_cast, hsum]
    simp only [Int.toNat_zero, List.drop_zero]
    exact List.take_of_length_le le_rfl

/-- Reading one group's length off the length-map equation. -/
theorem map_length_get {α : Type} {gs : List (List α)} {szs : List Nat}
    (h : gs.map List.length = szs) (k : Nat) (hk : k < gs.length) (hk2 : k < szs.length) :
    (gs.get ⟨k, hk⟩).length = szs.get ⟨k, hk2⟩ := by
  subst h
  simp [List.get_eq_getElem, List.getElem_map]

/-- A list permuting `[a, a]` is `[a, a]`. -/
theorem perm_pair_eq {α : Type} (a : α) (l : List α) (h : l.Perm [a, a]) : l = [a, a] := by
  have hl := h.length_eq
  rcases l with - | ⟨x, - | ⟨y, - | ⟨z, t⟩⟩⟩ <;> simp at hl
  have hx : x ∈ [a, a] := h.mem_iff.mp (by simp)
  have hy : y ∈ [a, a] := h.mem_iff.mp (by simp)
  simp at hx hy
  rw [hx, hy]

/-- Claim C4 (amended): for `numGroups ≥ 1`, `divide` returns exactly
`numGroups` groups whose sizes sum to `len E` and whose union is `E` as
a set; the groups are pairwise disjoint provided `E` has no duplicate
entries (slices of a shuffled list repeat a duplicated element across
groups); when `numGroups` exceeds `len E` the first `len E` groups have
size 1 and the rest size 0, an empty `E` gives only empty groups, and
`numGroups = 1` gives one group whose members are exactly those of `E`. -/
theorem divide_partition_conservation {α : Type} (E : List α) (n : Int) (h1 : 1 ≤ n) :
    ∃ gs, divide_entities E n = Except.ok gs ∧
      gs.length = n.toNat ∧
      (gs.map List.length).sum = E.length ∧
      (∀ x, x ∈ gs.flatten ↔ x ∈ E) ∧
      (E.Nodup → List.Pairwise List.Disjoint gs) ∧
      (E.length < n.toNat → ∀ k, ∀ hk : k < gs.length,
        (gs.get ⟨k, hk⟩).length = if k < E.length then 1 else 0) ∧
      (E = [] → ∀ g ∈ gs, g = []) ∧
      (n = 1 → ∃ g, gs = [g] ∧ ∀ x, x ∈ g ↔ x ∈ E) := by
  obtain ⟨gs, hok, hsz, hfl⟩ := divide_spec E n h1
  have hN1 : 1 ≤ n.toNat := by omega
  have hlen : gs.length = n.toNat := by
    have := congrArg List.length hsz
    simpa using this
  have hsum0 : (gs.map List.length).sum = E.length := by
    rw [hsz, sizes_sum_range]
    have hmod : E.length % n.toNat < n.toNat := Nat.mod_lt _ (by omega)
    have hdm := Nat.div_add_mod E.length n.toNat
    omega
  have hmem : ∀ x, x ∈ gs.flatten ↔ x ∈ E := fun x => by
    rw [hfl]
    exact (pyShuffle_perm E).mem_iff
  refine ⟨gs, hok, hlen, hsum0, hmem, ?_, ?_, ?_, ?_⟩
  · intro hnd
    have hjn : gs.flatten.Nodup := by
      rw [hfl]
      exact ((pyShuffle_perm E).nodup_iff).mpr hnd
    exact (List.nodup_flatten.mp hjn).2
  · intro hlt k hk
    have hk2 : k < ((List.range n.toNat).map
        (fun j => E.length / n.toNat + if j < E.length % n.toNat then 1 else 0)).length := by
      rw [List.length_map, List.length_range]
      omega
    rw [map_length_get hsz k hk hk2]
    simp only [List.get_eq_getElem, List.getElem_map, List.getElem_range]
    rw [Nat.div_eq_of_lt hlt, Nat.mod_eq_of_lt hlt]
    simp
  · intro hE
    subst hE
    have h0 : pyShuffle ([] : List α) = [] := (pyShuffle_perm []).eq_nil
    intro g hg
    rw [List.eq_nil_iff_forall_not_mem]
    intro x hx
    have hxj : x ∈ gs.flatten := List.mem_flatten.mpr ⟨g, hg, hx⟩
    rw [hfl, h0] at hxj
    simp at hxj
  · intro hn1
    subst hn1
    have h1l : gs.length = 1 := by simpa using hlen
    obtain ⟨g, rfl⟩ := List.length_eq_one.mp h1l
    refine ⟨g, rfl, fun x => ?_⟩
    simpa using hmem x

/-- Witness for C4 at `E = [1, 2, 3]`, `numGroups = 2`. -/
theorem divide_partition_conservation_witness :
    (1 : Int) ≤ 2 ∧
    ∃ gs, divide_entities ([1, 2, 3] : List Nat) 2 = Except.ok gs ∧
      gs.length = (2 : Int).toNat ∧
      (gs.map List.length).sum = ([1, 2, 3] : List Nat).length ∧
      (∀ x, x ∈ gs.flatten ↔ x ∈ ([1, 2, 3] : List Nat)) ∧
      (([1, 2, 3] : List Nat).Nodup → List.Pairwise List.Disjoint gs) ∧
      (([1, 2, 3] : List Nat).length < (2 : Int).toNat → ∀ k, ∀ hk : k < gs.length,
        (gs.get ⟨k, hk⟩).length = if k < ([1, 2, 3] : List Nat).length then 1 else 0) ∧
      (([1, 2, 3] : List Nat) = [] → ∀ g ∈ gs, g = []) ∧
      ((2 : Int) = 1 → ∃ g, gs = [g] ∧ ∀ x, x ∈ g ↔ x ∈ ([1, 2, 3] : List Nat)) :=
  ⟨by decide, divide_partition_conservation [1, 2, 3] 2 (by decide)⟩

/-- Counterexample to C4 as stated: with the duplicate-bearing input
`[0, 0]` and 2 groups the two groups share the element 0, so they are
not pairwise disjoint. -/
theorem divide_duplicates_not_disjoint :
    divide_entities ([0, 0] : List Nat) 2 = Except.ok [[0], [0]] ∧
    ¬ List.Pairwise List.Disjoint [([0] : List Nat), [0]] := by
  constructor
  · have hs : pyShuffle ([0, 0] : List Nat) = [0, 0] :=
      perm_pair_eq 0 _ (pyShuffle_perm _)
    simp only [divide_entities]
    rw [hs]
    rfl
  · intro h
    have h1 := List.pairwise_cons.mp h
    have hd := h1.1 [0] (by simp)
    exact hd (show (0 : Nat) ∈ [0] by simp) (by simp)

/-- Claim C5: for `numGroups ≥ 1`, group `k` has size
`len div n + 1` when `k < len mod n` and `len div n` otherwise; in
particular any two group sizes differ by at most 1. -/
theorem divide_partition_balance {α : Type} (E : List α) (n : Int) (h1 : 1 ≤ n) :
    ∃ gs, divide_entities E n = Except.ok gs ∧
      (∀ k, ∀ hk : k < gs.length, (gs.get ⟨k, hk⟩).length =
        if k < E.length % n.toNat then E.length / n.toNat + 1 else E.length / n.toNat) ∧
      (∀ g1 ∈ gs, ∀ g2 ∈ gs, g1.length ≤ g2.length + 1) := by
  obtain ⟨gs, hok, hsz, -⟩ := divide_spec E n h1
  have hlen : gs.length = n.toNat := by
    have := congrArg List.length hsz
    simpa using this
  have hper : ∀ k, ∀ hk : k < gs.length, (gs.get ⟨k, hk⟩).length =
      if k < E.length % n.toNat then E.length / n.toNat + 1 else E.length / n.toNat := by
    intro k hk
    have hk2 : k < ((List.range n.toNat).map
        (fun j => E.length / n.toNat + if j < E.length % n.toNat then 1 else 0)).length := by
      rw [List.length_map, List.length_range]
      omega
    rw [map_length_get hsz k hk hk2]
    simp only [List.get_eq_getElem, List.getElem_map, List.getElem_range]
    split <;> omega
  refine ⟨gs, hok, hper, ?_⟩
  intro g1 h1m g2 h2m
  obtain ⟨⟨k1, hk1⟩, e1⟩ := List.mem_iff_get.mp h1m
  obtain ⟨⟨k2, hk2⟩, e2⟩ := List.mem_iff_get.mp h2m
  have q1 := hper k1 hk1
  have q2 := hper k2 hk2
  rw [e1] at q1
  rw [e2] at q2
  rw [q1, q2]
  split <;> split <;> omega

/-- Witness for C5 at `E = [1, 2, 3, 4, 5]`, `numGroups = 3`. -/
theorem divide_partition_balance_witness :
    (1 : Int) ≤ 3 ∧
    ∃ gs, divide_entities ([1, 2, 3, 4, 5] : List Nat) 3 = Except.ok gs ∧
      (∀ k, ∀ hk : k < gs.length, (gs.get ⟨k, hk⟩).length =
        if k < ([1, 2, 3, 4, 5] : List Nat).length % (3 : Int).toNat then
          ([1, 2, 3, 4, 5] : List Nat).length / (3 : Int).toNat + 1
        else ([1, 2, 3, 4, 5] : List Nat).length / (3 : Int).toNat) ∧
      (∀ g1 ∈ gs, ∀ g2 ∈ gs, g1.length ≤ g2.length + 1) :=
  ⟨by decide, divide_partition_balance [1, 2, 3, 4, 5] 3 (by decide)⟩

/-- Claim C6: `divide` is deterministic — two calls on equal contents and
the same group count return identical results, because the generator is
re-seeded with the fixed constant 42 inside every call, making the whole
function a pure function of its arguments. -/
theorem divide_deterministic {α : Type} (E E2 : List α) (n : Int) (h : E = E2) :
    divide_entities E n = divide_entities E2 n := by
  rw [h]

/-- Witness for C6 at `E = E2 = [3, 1, 2]`, `n = 7`. -/
theorem divide_deterministic_witness :
    ([3, 1, 2] : List Nat) = [3, 1, 2] ∧
    divide_entities ([3, 1, 2] : List Nat) 7 = divide_entities ([3, 1, 2] : List Nat) 7 :=
  ⟨rfl, divide_deterministic [3, 1, 2] [3, 1, 2] 7 rfl⟩

/-- Claim C10: with `num_groups = 0` the computation of
`total // num_groups` raises `ZeroDivisionError` for every input list,
and with a negative `num_groups` the `range` loop is empty and the call
returns an empty list of groups. -/
theorem divide_zero_groups_and_negative {α : Type} (E : List α) (n : Int) (hneg : n < 0) :
    divide_entities E 0 = Except.error PyError.zeroDivision ∧
    divide_entities E n = Except.ok [] := by
  constructor
  · rfl
  · have h0 : rangeInt n = [] := by
      unfold rangeInt
      rw [Int.toNat_of_nonpos (le_of_lt hneg)]
      rfl
    have hn0 : ¬(n = 0) := by omega
    simp only [divide_entities, pyFloorDiv, pyMod, if_neg hn0, h0]
    rfl

/-- Witness for C10 at `E = [5]`, negative group count `-1`. -/
theorem divide_zero_groups_and_negative_witness :
    divide_entities ([5] : List Nat) 0 = Except.error PyError.zeroDivision ∧
    divide_entities ([5] : List Nat) (-1) = Except.ok [] :=
  divide_zero_groups_and_negative [5] (-1) (by decide)

/-- Splitting a successful `Except` bind into its two successful stages. -/
theorem except_bind_ok {ε α β : Type} {x : Except ε α} {f : α → Except ε β} {b : β}
    (h : (x >>= f) = Except.ok b) : ∃ a, x = Except.ok a ∧ f a = Except.ok b := by
  cases x with
  | error e => simp [Bind.bind, Except.bind] at h
  | ok a => exact ⟨a, rfl, h⟩

/-- Claim C8 (amended): `main` returns 1 exactly when the database file
is missing; an export of zero usable rows is not checked — the command
divides the empty list, writes `num_groups` empty group files and
returns 0. -/
theorem mainExit_codes :
    (∀ (E : List EntityRec) (n : Int), mainExit false E n = Except.ok 1) ∧
    mainExit true [] 10 = Except.ok 0 :=
  ⟨fun _ _ => rfl, rfl⟩

/-- Counterexample to C8 as stated: with the database present and zero
exported rows, `main` returns 0, not the claimed failure code 1. -/
theorem mainExit_empty_rows_returns_zero :
    mainExit true [] 10 = Except.ok 0 ∧
    (Except.ok 0 : Except PyError Int) ≠ Except.ok 1 :=
  ⟨rfl, by decide⟩

/-- Claim C9: `create` unlinks any pre-existing database file before
connecting, so the resulting store is the fresh build of the ingested
document, independent of what was at the path before the call. -/
theorem create_ignores_existing_file (prior prior2 : Option DB) (data : ModuleData) :
    createFile prior data = createFile prior2 data ∧
    createFile prior data = createVisible data := by
  cases prior <;> cases prior2 <;> exact ⟨rfl, rfl⟩

/-- Claim C1 (code bug): ingesting the modules `pkg.a` and `pkg.b`
stores two rows carrying only `id`, `name` and `docstring` — the
`modules` table of `scripts/create_database.py` has no `root_module`
column and `insert_module` derives nothing from the name, while the
spec-modelled `get_root_module` demanded by the repository's own tests
would map both names to `pkg`. -/
theorem modules_lack_root_module :
    ingestTwoModules = Except.ok { emptyDB with
      modules := [⟨1, "pkg.a", none⟩, ⟨2, "pkg.b", none⟩], next_module_id := 3 } ∧
    get_root_module "pkg.a" = "pkg" ∧ get_root_module "pkg.b" = "pkg" :=
  ⟨rfl, rfl, rfl⟩

/-- Claim C7: if populating a document fails with any uniqueness
violation, nothing of the document is visible afterwards — the store is
exactly the schema-only state the `create_schema` commit left behind. -/
theorem populate_failure_rolls_back (data : ModuleData) (e : DBError)
    (h : populate_database emptyDB data = Except.error e) :
    createVisible data = emptyDB ∧
    (createVisible data).modules = [] ∧ (createVisible data).classes = [] ∧
    (createVisible data).class_inheritance = [] ∧ (createVisible data).functions = [] ∧
    (createVisible data).parameters = [] ∧ (createVisible data).classes_fts = [] ∧
    (createVisible data).functions_fts = [] := by
  have hv : createVisible data = emptyDB := by
    unfold createVisible
    rw [h]
  rw [hv]
  exact ⟨rfl, rfl, rfl, rfl, rfl, rfl, rfl, rfl⟩

/-- Witness for C7: a document with a duplicated class qualified name
fails mid-populate, and the visible store is the empty schema. -/
theorem populate_failure_rolls_back_witness :
    populate_database emptyDB sampleDupDoc = Except.error (DBError.uniqueClassFqn "m.C") ∧
    (createVisible sampleDupDoc = emptyDB ∧
      (createVisible sampleDupDoc).modules = [] ∧
      (createVisible sampleDupDoc).classes = [] ∧
      (createVisible sampleDupDoc).class_inheritance = [] ∧
      (createVisible sampleDupDoc).functions = [] ∧
      (createVisible sampleDupDoc).parameters = [] ∧
      (createVisible sampleDupDoc).classes_fts = [] ∧
      (createVisible sampleDupDoc).functions_fts = []) :=
  ⟨rfl, populate_failure_rolls_back sampleDupDoc (DBError.uniqueClassFqn "m.C") rfl⟩

/-! ### Inheritance rows of `insert_class` (claim C2) -/

/-- The base loop appends exactly one edge row per element of `bases`. -/
theorem insert_bases_inheritance (cid : Nat) :
    ∀ (bs : List String) (db db2 : DB), insert_bases cid db bs = Except.ok db2 →
    db2.class_inheritance = db.class_inheritance ++
      bs.map (fun b => (⟨cid, b⟩ : InheritanceRow)) := by
  intro bs
  induction bs with
  | nil =>
    intro db db2 h
    rw [← Except.ok.inj h]
    simp
  | cons b rest ih =>
    intro db db2 h
    rw [insert_bases] at h
    split at h
    · exact Except.noConfusion h
    · rw [ih _ _ h]
      simp

/-- Method `insert_function` never touches `class_inheritance`. -/
theorem insert_function_inheritance (db : DB) (fd : FuncData) (mid : Nat)
    (cid : Option Nat) (db2 : DB) (h : insert_function db fd mid cid = Except.ok db2) :
    db2.class_inheritance = db.class_inheritance := by
  unfold insert_function at h
  split at h
  · exact Except.noConfusion h
  · rw [← Except.ok.inj h]

/-- Folding `insert_function` over the method list never touches
`class_inheritance`. -/
theorem foldlM_insert_function_inheritance (mid : Nat) (cid : Option Nat) :
    ∀ (ms : List FuncData) (db db2 : DB),
    ms.foldlM (fun acc md => insert_function acc md mid cid) db = Except.ok db2 →
    db2.class_inheritance = db.class_inheritance := by
  intro ms
  induction ms with
  | nil =>
    intro db db2 h
    rw [← Except.ok.inj h]
  | cons m rest ih =>
    intro db db2 h
    rw [List.foldlM_cons] at h
    obtain ⟨dbm, hm, h2⟩ := except_bind_ok h
    rw [ih dbm db2 h2, insert_function_inheritance db m mid cid dbm hm]

/-- Claim C2 (amended): a successful `insert_class` appends exactly one
inheritance-edge row per element of the declared `bases` list — with no
filtering of the universal base `object` (that filtering happens
upstream, in the introspection walker, not in `insert_class`). -/
theorem insert_class_inheritance_rows (db : DB) (cd : ClassData) (mid : Nat) (db2 : DB)
    (h : insert_class db cd mid = Except.ok db2) :
    db2.class_inheritance = db.class_inheritance ++
      cd.bases.map (fun b => (⟨db.next_class_id, b⟩ : InheritanceRow)) := by
  unfold insert_class at h
  split at h
  · exact Except.noConfusion h
  · obtain ⟨dbB, hB, h2⟩ := except_bind_ok h
    rw [foldlM_insert_function_inheritance mid (some db.next_class_id) cd.methods dbB db2 h2]
    rw [insert_bases_inheritance db.next_class_id cd.bases _ dbB hB]

/-- Witness for C2: inserting a class whose `bases` list is exactly
`["object"]` into a fresh store appends one edge row for `object`. -/
theorem insert_class_inheritance_rows_witness :
    insert_class emptyDB sampleClassObject 1 = Except.ok sampleClassObjectResult ∧
    sampleClassObjectResult.class_inheritance =
      emptyDB.class_inheritance ++ sampleClassObject.bases.map
        (fun b => (⟨emptyDB.next_class_id, b⟩ : InheritanceRow)) :=
  ⟨rfl, insert_class_inheritance_rows emptyDB sampleClassObject 1 sampleClassObjectResult rfl⟩

/-- Counterexample to C2 as stated: a class declaring `bases = ["object"]`
yields one inheritance-edge row, not zero — `object` is not skipped. -/
theorem insert_class_object_not_skipped :
    (insert_class emptyDB sampleClassObject 1).map (fun d => d.class_inheritance) =
      Except.ok [⟨1, "object"⟩] :=
  rfl

/-! ### FTS5 shadow-index invariant (claim C3) -/

/-- Filtering after a projection equals projecting a pre-filtered list. -/
theorem filter_map_eq {β γ : Type} (f : β → γ) (p : γ → Bool) (l : List β) :
    (l.map f).filter p = (l.filter (fun b => p (f b))).map f := by
  rw [List.filter_map]
  rfl

/-- A deletion keyed through the projection preserves the mirror. -/
theorem mirror_delete_perm {β γ : Type} (f : β → γ) (pb : β → Bool) (q : γ → Bool)
    (hq : ∀ b, q (f b) = pb b) {base : List β} {fts : List γ}
    (h : fts.Perm (base.map f)) :
    (fts.filter q).Perm ((base.filter pb).map f) := by
  have h2 := h.filter q
  rw [filter_map_eq] at h2
  have e : base.filter (fun b => q (f b)) = base.filter pb :=
    List.filter_congr (fun b _ => by rw [hq])
  rw [e] at h2
  exact h2

/-- A keyed update (trigger: delete the old mirror row, insert the new
one) preserves the mirror. -/
theorem mirror_update_perm {β γ : Type} (f newf : β → γ) (u : β → β) (p : β → Bool)
    (q : γ → Bool)
    (hq : ∀ b : β, q (f b) = !(p b))
    (hu_p : ∀ b, p (u b) = p b)
    (hu_id : ∀ b, p b = false → u b = b)
    (hnew : ∀ b, p b = true → f (u b) = newf b)
    {base : List β} {fts : List γ} (h : fts.Perm (base.map f)) :
    (fts.filter q ++ (base.filter p).map newf).Perm ((base.map u).map f) := by
  have h1 : (fts.filter q).Perm ((base.filter (fun b => !(p b))).map f) := by
    have h2 := h.filter q
    rw [filter_map_eq] at h2
    have e : base.filter (fun b => q (f b)) = base.filter (fun b => !(p b)) :=
      List.filter_congr (fun b _ => by rw [hq])
    rw [e] at h2
    exact h2
  have e1 : (base.map u).filter (fun b => !(p b)) = base.filter (fun b => !(p b)) := by
    rw [filter_map_eq]
    have e : base.filter (fun b => !(p (u b))) = base.filter (fun b => !(p b)) :=
      List.filter_congr (fun b _ => by rw [hu_p])
    rw [e]
    have hid : ∀ b ∈ base.filter (fun b => !(p b)), u b = b := by
      intro b hb
      have hpb := (List.mem_filter.mp hb).2
      exact hu_id b (by simpa using hpb)
    rw [List.map_congr_left hid]
    exact List.map_id _
  have e2 : ((base.map u).filter (fun b => p b)).map f = (base.filter p).map newf := by
    rw [filter_map_eq]
    have e : base.filter (fun b => p (u b)) = base.filter (fun b => p b) :=
      List.filter_congr (fun b _ => by rw [hu_p])
    rw [e, List.map_map]
    refine List.map_congr_left (fun b hb => ?_)
    exact hnew b (by simpa using (List.mem_filter.mp hb).2)
  have hA : (fts.filter q ++ (base.filter p).map newf).Perm
      ((base.filter (fun b => !(p b))).map f ++ (base.filter p).map newf) :=
    h1.append_right _
  refine hA.trans ?_
  rw [← e2, ← e1]
  refine List.perm_append_comm.trans ?_
  rw [← List.map_append]
  exact (List.filter_append_perm _ _).map f

/-- Every single SQL write preserves the shadow-index mirror. -/
theorem ftsMirror_applyOp (db : DB) (op : TableOp) (h : ftsMirror db) :
    ftsMirror (applyOp db op) := by
  obtain ⟨hc, hf⟩ := h
  cases op with
  | insClass nm fq d m =>
    refine ⟨?_, by simpa [applyOp] using hf⟩
    simp only [applyOp]
    rw [List.map_append]
    exact hc.append (List.Perm.refl _)
  | delClass i =>
    refine ⟨?_, by simpa [applyOp] using hf⟩
    simp only [applyOp]
    exact mirror_delete_perm classToFts _ _ (fun b => rfl) hc
  | updClass i nm fq d =>
    refine ⟨?_, by simpa [applyOp] using hf⟩
    simp only [applyOp]
    refine mirror_update_perm classToFts _ _ _ _ ?_ ?_ ?_ ?_ hc
    · intro b
      simp [classToFts, decide_not]
    · intro b
      by_cases hb : b.id = i <;> simp [hb]
    · intro b hb
      simp only [decide_eq_false_iff_not] at hb
      simp [hb]
    · intro b hb
      simp only [decide_eq_true_eq] at hb
      simp [classToFts, hb]
  | insFunc nm fq sg d m =>
    refine ⟨by simpa [applyOp] using hc, ?_⟩
    simp only [applyOp]
    rw [List.map_append]
    exact hf.append (List.Perm.refl _)
  | delFunc i =>
    refine ⟨by simpa [applyOp] using hc, ?_⟩
    simp only [applyOp]
    exact mirror_delete_perm funcToFts _ _ (fun b => rfl) hf
  | updFunc i nm fq sg d =>
    refine ⟨by simpa [applyOp] using hc, ?_⟩
    simp only [applyOp]
    refine mirror_update_perm funcToFts _ _ _ _ ?_ ?_ ?_ ?_ hf
    · intro b
      simp [funcToFts, decide_not]
    · intro b
      by_cases hb : b.id = i <;> simp [hb]
    · intro b hb
      simp only [decide_eq_false_iff_not] at hb
      simp [hb]
    · intro b hb
      simp only [decide_eq_true_eq] at hb
      simp [funcToFts, hb]

/-- The mirror holds along any op sequence from any mirrored start. -/
theorem applyOps_mirror_from : ∀ (ops : List TableOp) (db : DB),
    ftsMirror db → ftsMirror (ops.foldl applyOp db) := by
  intro ops
  induction ops with
  | nil => intro db h; exact h
  | cons o rest ih => intro db h; exact ih _ (ftsMirror_applyOp db o h)

/-- Claim C3: after any sequence of inserts, updates and deletes on the
`classes` / `functions` base tables, the shadow indexes hold exactly the
mirror rows of the live base rows; moreover inserting a class whose
docstring contains a token `T` makes a search for `T` return that class,
and after deleting the class no search hit carries its rowid. -/
theorem fts_shadow_consistent :
    (∀ ops : List TableOp, ftsMirror (applyOps ops)) ∧
    (∀ (db : DB) (nm fq : String) (d : Option String) (m : Nat) (T : String),
      T ∈ tokenize (d.getD "") →
        (∃ r, r ∈ searchClassesFts T (applyOp db (.insClass nm fq d m)) ∧
          r.rowid = db.next_class_id ∧ r.name = nm ∧ r.full_qualified_name = fq ∧
          r.docstring = d) ∧
        (∀ r, r ∈ searchClassesFts T
            (applyOp (applyOp db (.insClass nm fq d m)) (.delClass db.next_class_id)) →
          r.rowid ≠ db.next_class_id)) := by
  constructor
  · intro ops
    exact applyOps_mirror_from ops emptyDB ⟨List.Perm.refl _, List.Perm.refl _⟩
  · intro db nm fq d m T hT
    constructor
    · refine ⟨⟨db.next_class_id, nm, fq, d⟩, ?_, rfl, rfl, rfl, rfl⟩
      unfold searchClassesFts applyOp
      refine List.mem_filter.mpr ⟨List.mem_append_right _ (by simp), ?_⟩
      refine decide_eq_true ?_
      exact List.mem_append_right _ hT
    · intro r hr
      unfold searchClassesFts applyOp at hr
      have hr2 := (List.mem_filter.mp (List.mem_filter.mp hr).1).2
      simpa using hr2

/-- Witness for C3: insert a class whose docstring holds the token
`hello`, search for it, then delete the class and search again. -/
theorem fts_shadow_consistent_witness :
    ("hello" ∈ tokenize ((some "hello world").getD "")) ∧
    ((∃ r, r ∈ searchClassesFts "hello"
          (applyOp emptyDB (.insClass "C" "m.C" (some "hello world") 1)) ∧
        r.rowid = emptyDB.next_class_id ∧ r.name = "C" ∧
        r.full_qualified_name = "m.C" ∧ r.docstring = some "hello world") ∧
      (∀ r, r ∈ searchClassesFts "hello"
          (applyOp (applyOp emptyDB (.insClass "C" "m.C" (some "hello world") 1))
            (.delClass emptyDB.next_class_id)) →
        r.rowid ≠ emptyDB.next_class_id)) :=
  ⟨by decide,
    fts_shadow_consistent.2 emptyDB "C" "m.C" (some "hello world") 1 "hello" (by decide)⟩
